import Mathlib

/-!
Verification of the adbctl device-management tool (Go sources: main.go,
adbctl.go and two unnamed variants) against its natural-language
specification.  The Go code shells out to the external `adb` binary; the
behaviour of that external process is modelled by explicit outcome types
(`ProcOutcome`, `RunOutcome`, `ListingOutcome`): each Go function that
spawns a process becomes a pure Lean function of the process outcome.
Go string primitives (strings.TrimSpace, strings.Fields, strings.Split,
strconv.Atoi, fmt.Sscanf with the "%d" verb) are embedded at the
`List Char` level, restricted to the character classes the tool actually
meets (ASCII plus the two extra Latin-1 white-space code points of the Go
unicode.IsSpace table).
-/

namespace Adbctl

/-- Go unicode.IsSpace for the Latin-1 range: space, tab, newline,
vertical tab, form feed, carriage return, NEL (U+0085) and NBSP (U+00A0).
This is the white-space test underlying strings.TrimSpace and
strings.Fields. -/
def goIsSpace (c : Char) : Bool :=
  c.toNat = 32 || c.toNat = 9 || c.toNat = 10 || c.toNat = 11 ||
  c.toNat = 12 || c.toNat = 13 || c.toNat = 133 || c.toNat = 160

/-- Decimal digit test, as used by strconv.Atoi and the fmt "%d" verb. -/
def goIsDigit (c : Char) : Bool :=
  48 ≤ c.toNat && c.toNat ≤ 57

/-- Numeric value of a decimal digit character. -/
def digitVal (c : Char) : Nat := c.toNat - 48

/-- Value of a most-significant-first decimal digit list. -/
def valMSB (l : List Char) : Nat :=
  l.foldl (fun a c => 10 * a + digitVal c) 0

/-- Left part of strings.TrimSpace. -/
def trimLeftL (l : List Char) : List Char := l.dropWhile goIsSpace

/-- Right part of strings.TrimSpace. -/
def trimRightL (l : List Char) : List Char :=
  (l.reverse.dropWhile goIsSpace).reverse

/-- strings.TrimSpace on a character list. -/
def goTrimSpaceL (l : List Char) : List Char := trimRightL (trimLeftL l)

/-- strings.TrimSpace. -/
def goTrimSpace (s : String) : String := (goTrimSpaceL s.data).asString

/-- strings.Split(s, "\n") on a character list: strings.Split with a
one-character separator yields the chunks between newline characters,
with a final chunk after the last newline (possibly empty). -/
def goSplitNlL : List Char → List (List Char)
  | [] => [[]]
  | c :: cs =>
    match goSplitNlL cs with
    | [] => [[]]
    | l :: ls => if c = '\n' then [] :: l :: ls else (c :: l) :: ls

theorem length_dropWhile_le {α : Type} (p : α → Bool) (l : List α) :
    (l.dropWhile p).length ≤ l.length := by
  induction l with
  | nil => simp
  | cons c cs ih =>
    rw [List.dropWhile_cons]
    by_cases h : p c = true
    · simp only [h, if_true, List.length_cons]
      omega
    · simp [h]

/-- Fuelled core of strings.Fields; the fuel is an upper bound on the
list length, so the wrapper below always supplies enough. -/
def goFieldsFuel : Nat → List Char → List (List Char)
  | 0, _ => []
  | _ + 1, [] => []
  | fuel + 1, c :: cs =>
    if goIsSpace c then goFieldsFuel fuel cs
    else (c :: cs.takeWhile (fun x => !goIsSpace x)) ::
      goFieldsFuel fuel (cs.dropWhile (fun x => !goIsSpace x))

/-- strings.Fields on a character list: maximal runs of non-white-space
characters. -/
def goFieldsL (l : List Char) : List (List Char) := goFieldsFuel l.length l

theorem goFieldsFuel_congr :
    ∀ (f₁ f₂ : Nat) (l : List Char), l.length ≤ f₁ → l.length ≤ f₂ →
      goFieldsFuel f₁ l = goFieldsFuel f₂ l := by
  intro f₁
  induction f₁ with
  | zero =>
    intro f₂ l h₁ _
    have : l = [] := by
      cases l with
      | nil => rfl
      | cons c cs => simp at h₁
    subst this
    cases f₂ <;> rfl
  | succ g ih =>
    intro f₂ l h₁ h₂
    cases l with
    | nil => cases f₂ <;> rfl
    | cons c cs =>
      cases f₂ with
      | zero => simp at h₂
      | succ g₂ =>
        simp only [goFieldsFuel]
        by_cases hc : goIsSpace c = true
        · rw [if_pos hc, if_pos hc]
          exact ih g₂ cs (by simp at h₁; omega) (by simp at h₂; omega)
        · rw [if_neg hc, if_neg hc]
          have hd : (cs.dropWhile (fun x => !goIsSpace x)).length ≤ cs.length :=
            length_dropWhile_le _ _
          rw [ih g₂ (cs.dropWhile (fun x => !goIsSpace x))
            (by simp at h₁; omega) (by simp at h₂; omega)]

/-- Unfolding equation of `goFieldsL` on a cons cell. -/
theorem goFieldsL_cons (c : Char) (cs : List Char) :
    goFieldsL (c :: cs) =
      if goIsSpace c then goFieldsL cs
      else (c :: cs.takeWhile (fun x => !goIsSpace x)) ::
        goFieldsL (cs.dropWhile (fun x => !goIsSpace x)) := by
  show goFieldsFuel (c :: cs).length (c :: cs) = _
  simp only [List.length_cons, goFieldsFuel]
  by_cases hc : goIsSpace c = true
  · rw [if_pos hc, if_pos hc]
    exact goFieldsFuel_congr _ _ cs (by omega) (by omega)
  · rw [if_neg hc, if_neg hc]
    rw [goFieldsFuel_congr cs.length _ (cs.dropWhile (fun x => !goIsSpace x))
      (length_dropWhile_le _ _) (le_refl _)]
    rfl

/-- Front-part test on character lists, mirroring strings.HasPrefix as it
is applied to parsed lines. -/
def startsWithL : List Char → List Char → Bool
  | [], _ => true
  | _ :: _, [] => false
  | p :: ps, c :: cs => p == c && startsWithL ps cs

theorem startsWithL_append (p rest : List Char) :
    startsWithL p (p ++ rest) = true := by
  induction p with
  | nil => rfl
  | cons c cs ih => simp [startsWithL, ih]

/-- Decimal scan of a non-empty digit run, shared by the Atoi and Sscanf
models below. Returns none when the text does not begin with a digit. -/
def scanNatL (cs : List Char) : Option Nat :=
  match cs.takeWhile goIsDigit with
  | [] => none
  | ds => some (valMSB ds)

/-- fmt.Sscanf(input, "%d", &index): an optional sign followed by at
least one decimal digit; trailing non-digit text is left unread and does
not make the scan fail. (Values overflowing the 64-bit Go int make the
real Sscanf fail; such inputs are rejected by the range check of every
caller in either case, so width is not modelled.) -/
def scanIntL (cs : List Char) : Option Int :=
  match cs with
  | [] => none
  | c :: rest =>
    if c = '-' then (scanNatL rest).map (fun n => -(n : Int))
    else if c = '+' then (scanNatL rest).map (fun n => (n : Int))
    else (scanNatL (c :: rest)).map (fun n => (n : Int))

/-- Largest value of the 64-bit Go int, 2 ^ 63 - 1. -/
def goMaxInt : Int := 9223372036854775807

/-- Smallest value of the 64-bit Go int, -(2 ^ 63). -/
def goMinInt : Int := -9223372036854775808

/-- Range behaviour of strconv.ParseInt with bitSize 0: a value outside
the platform int range is returned clamped to the nearer limit, paired
with ErrRange. The 64-bit limits of the amd64 and arm64 build targets
are modelled; the 32-bit targets of the build script clamp at
2 ^ 31 - 1 already, so the theorems below that rely on exact parsing
carry bounds inside the smaller 32-bit range. -/
def goIntClamp (v : Int) : Int :=
  if v > goMaxInt then goMaxInt
  else if v < goMinInt then goMinInt
  else v

/-- Whole-string integer syntax of strconv.Atoi: an optional sign and
then digits to the very end. -/
def atoiNatL (cs : List Char) : Option Nat :=
  if cs ≠ [] ∧ cs.all goIsDigit then some (valMSB cs) else none

/-- strconv.Atoi: none is a syntax error (Go returns value 0 together
with ErrSyntax), some carries the value Go hands back - the parsed
value, clamped to the int range and paired with ErrRange when it
overflows. -/
def atoiL (cs : List Char) : Option Int :=
  match cs with
  | [] => none
  | c :: rest =>
    if c = '-' then (atoiNatL rest).map (fun n => goIntClamp (-(n : Int)))
    else if c = '+' then (atoiNatL rest).map (fun n => goIntClamp (n : Int))
    else (atoiNatL (c :: rest)).map (fun n => goIntClamp (n : Int))

/-- `v, _ = strconv.Atoi(s)` with the error discarded: Go leaves 0 in v
on a syntax error and the clamped limit on a range error. -/
def atoiOr0L (cs : List Char) : Int := (atoiL cs).getD 0

/-- Outcome of one spawned adb process, the only non-determinism in the
command runner: the process finished and its output was captured
(success), the context deadline elapsed first (timedOut), or it failed
in any other way - non-zero exit, missing binary, capture error
(execFailure). -/
inductive ProcOutcome where
  | success (output : String)
  | timedOut
  | execFailure
deriving DecidableEq

/-- runAdbCommandWithTimeout of the unnamed variant (part_000 lines
19-43): on error it distinguishes the deadline case, otherwise it trims
the output and degrades an empty trimmed result to the "n/a" sentinel.
The deviceID only selects the argv shape in the source and never changes
the result value. -/
def runAdbCommandWithTimeout (deviceID command : String) (timeout : Nat) :
    ProcOutcome → String
  | .timedOut => "Error: Command timed out"
  | .execFailure => "n/a"
  | .success out =>
    let result := goTrimSpace out
    if result = "" then "n/a" else result

/-- runAdbCommand of main.go lines 34-45 and adbctl.go lines 37-48: any
error at all (the deadline case included) yields "n/a"; a captured
output is returned trimmed, even when the trimmed result is empty. -/
def runAdbCommand (deviceID command : String) (timeout : Nat) :
    ProcOutcome → String
  | .timedOut => "n/a"
  | .execFailure => "n/a"
  | .success out => goTrimSpace out

/-- Guard of the device-listing loop in main.go lines 57-61 (identical in
part_000): keep a line when its trimmed form is non-empty and the raw
line does not end in the literal marker "offline". -/
def lineGood (l : List Char) : Bool :=
  decide (goTrimSpaceL l ≠ []) && !("offline".data.isSuffixOf l)

/-- Body of the listing loop of getConnectedDevices (main.go lines
56-61): for each kept line append its first whitespace-delimited field.
The headD default is unreachable because a kept line has a non-empty
trimmed form, hence at least one field (proved in the C2 theorem). -/
def collectDevicesL : List (List Char) → List (List Char)
  | [] => []
  | line :: rest =>
    if lineGood line then (goFieldsL line).headD [] :: collectDevicesL rest
    else collectDevicesL rest

/-- getConnectedDevices of main.go lines 47-63 and part_000 lines 45-61,
applied to the captured `adb devices` output: split on newlines, skip
the header line, collect the first field of every good line. (The
adbctl.go variant stores whole lines instead and defers the first-field
extraction to selectDevice.) -/
def getConnectedDevices (output : String) : List String :=
  (collectDevicesL ((goSplitNlL output.data).drop 1)).map List.asString

/-- Modelled from the spec: the parsing rule of section 4.2 as written -
skip the first line, keep every remaining non-blank line not ending in
"offline", and take the first whitespace-delimited token of each kept
line, in input order. Used as the refinement target for claim C2. -/
def listDevicesSpec (output : String) : List String :=
  ((((goSplitNlL output.data).drop 1).filter lineGood).map
    (fun l => (goFieldsL l).headD [])).map List.asString

/-- Result of running the device-selection stage with a given queue of
console input lines: the program exits (os.Exit with the given code), a
device is returned after the given number of prompts, or the input queue
is exhausted while the loop keeps re-prompting forever (hang). -/
inductive SelectResult where
  | exited (code : Nat)
  | selected (id : String) (prompts : Nat)
  | hang
deriving DecidableEq

/-- One more prompt in front of an already-determined loop result. -/
def promptRetry (r : Option (String × Nat)) : Option (String × Nat) :=
  r.map (fun pr => (pr.1, pr.2 + 1))

/-- Effect of one rejected console line on the final selection outcome:
one more prompt is issued and everything else is unchanged. -/
def promptStep : SelectResult → SelectResult
  | .selected d n => .selected d (n + 1)
  | r => r

/-- The selection loop of selectDevice (main.go lines 81-92): each
iteration prints one prompt, reads one line, trims it, scans "%d" and
accepts only a strictly in-range 1-based index; anything else re-prompts.
Console input is modelled as the list of entered lines (the newline
terminator that bufio ReadString keeps is removed by TrimSpace in the
source, so lines are taken terminator-free here); an exhausted queue
models the loop spinning forever on the empty reads of a closed stdin. -/
def selectLoop (devices : List String) : List String → Option (String × Nat)
  | [] => none
  | input :: rest =>
    match scanIntL (goTrimSpaceL input.data) with
    | some idx =>
      if 0 < idx ∧ idx ≤ (devices.length : Int) then
        some (devices.getD (idx.toNat - 1) "", 1)
      else promptRetry (selectLoop devices rest)
    | none => promptRetry (selectLoop devices rest)

/-- selectDevice of main.go lines 65-93 and part_000 lines 63-91: zero
devices print instructions and exit 1; one device is returned at once
with zero prompts and no read from the input queue; otherwise the
numbered list is printed and the selection loop runs. -/
def selectDevice (devices : List String) (inputs : List String) : SelectResult :=
  if devices.length = 0 then .exited 1
  else if devices.length = 1 then .selected (devices.headD "") 0
  else
    match selectLoop devices inputs with
    | some pr => .selected pr.1 pr.2
    | none => .hang

/-- Outcome of the probe process spawned by checkDeviceConnectivity:
cmd.Run returned nil; or it returned an error with the context deadline
exceeded; or it returned any other error, carrying its text. -/
inductive RunOutcome where
  | ok
  | timedOut
  | failed (errText : String)
deriving DecidableEq

/-- Diagnostic of the timed-out branch of checkDeviceConnectivity. The
%v rendering of the Go duration is modelled as the second count followed
by the unit letter. -/
def timeoutMsg (timeout : Nat) : String :=
  "device connection timed out after " ++ toString timeout ++ "s"

/-- Diagnostic of the other-failure branch of checkDeviceConnectivity. -/
def failMsg (errText : String) : String :=
  "failed to connect to device: " ++ errText

/-- checkDeviceConnectivity of main.go lines 95-108, part_000 lines
93-106 and adbctl.go lines 101-114: none models a nil error (success),
some carries the diagnostic built for the error case. -/
def checkDeviceConnectivity (deviceID : String) (timeout : Nat) :
    RunOutcome → Option String
  | .ok => none
  | .timedOut => some (timeoutMsg timeout)
  | .failed e => some (failMsg e)

/-- How the main of part_000 (lines 205-220) consumes the probe result:
a non-nil error prints the diagnostic and exits 1, a nil error lets the
program proceed to collect device properties. -/
inductive ProbeGate where
  | exitedOne
  | proceedToReport
deriving DecidableEq

/-- The gate in part_000 main lines 210-215. -/
def connectivityGate (probe : Option String) : ProbeGate :=
  match probe with
  | some _ => .exitedOne
  | none => .proceedToReport

/-- The scanning loop shared by parseMemInfo (main.go lines 110-127,
adbctl.go lines 116-133) and getMemoryInfo (part_000 lines 115-130): one
pass over the lines updating the three counters; the none result models
the Go panic raised by `strings.Fields(line)[1]` when a matched line has
fewer than two fields. -/
def memScan : List (List Char) → Int × Int × Int → Option (Int × Int × Int)
  | [], acc => some acc
  | line :: rest, (t, f, a) =>
    if startsWithL "MemTotal:".data line then
      match goFieldsL line with
      | _ :: v :: _ => memScan rest (atoiOr0L v, f, a)
      | _ => none
    else if startsWithL "MemFree:".data line then
      match goFieldsL line with
      | _ :: v :: _ => memScan rest (t, atoiOr0L v, a)
      | _ => none
    else if startsWithL "MemAvailable:".data line then
      match goFieldsL line with
      | _ :: v :: _ => memScan rest (t, f, atoiOr0L v)
      | _ => none
    else memScan rest (t, f, a)

/-- Integer core of parseMemInfo: the scanned totalKB, freeKB and
availableKB counters together with usedKB = totalKB - availableKB
(main.go line 122). The final fmt.Sprintf float rendering of the source
only packages these integers for display and is not modelled; none again
models the panic of the scanning loop. -/
def parseMemInfoKB (meminfo : String) : Option (Int × Int × Int × Int) :=
  (memScan (goSplitNlL meminfo.data) (0, 0, 0)).map
    (fun acc => (acc.1, acc.2.1, acc.2.2, acc.1 - acc.2.2))

/-- The synthetic meminfo text of the spec test bullet, with the two
values left as parameters. -/
def mkMemInfo (memTotalKB memAvailableKB : Nat) : String :=
  "MemTotal: " ++ toString memTotalKB ++ " kB\n" ++
  "MemAvailable: " ++ toString memAvailableKB ++ " kB"

/-- The (label, value) entry of the property report, DeviceInfo in every
source variant. -/
structure DeviceInfo where
  property : String
  value : String
deriving DecidableEq

/-- The maxLength loop of formatOutput (part_000 lines 189-194). -/
def maxPropLen (info : List DeviceInfo) : Nat :=
  info.foldl
    (fun m i => if i.property.data.length > m then i.property.data.length else m) 0

/-- Go Sprintf left-justified padding "%-*s": pad on the right with
spaces up to the width, never truncating. -/
def padRightL (l : List Char) (w : Nat) : List Char :=
  l ++ List.replicate (w - l.length) ' '

/-- One report line of formatOutput (part_000 line 200):
Sprintf("%-*s : %s\n", maxLength, property, value). -/
def entryLineL (p v : List Char) (w : Nat) : List Char :=
  padRightL p w ++ ' ' :: ':' :: ' ' :: (v ++ ['\n'])

/-- formatOutput of part_000 lines 188-203: a title line, a rule of 20
equals signs, then one aligned line per entry in report order. (The
formatOutput of main.go and adbctl.go instead walks a Go map of display
groups, whose iteration order Go randomises, and drops entries absent
from the group table; the sequential part_000 variant is the one the
round-trip property of the spec describes.) -/
def formatOutput (info : List DeviceInfo) : String :=
  List.asString
    ("Device Information:\n".data ++
      (List.replicate 20 '=' ++ "\n".data) ++
      (info.map (fun i =>
        entryLineL i.property.data i.value.data (maxPropLen info))).flatten)

/-- True when the text begins with the column separator of the report
format, a colon framed by single spaces. -/
def sepHereL (l : List Char) : Bool :=
  match l with
  | c₁ :: c₂ :: c₃ :: _ => c₁ = ' ' && c₂ = ':' && c₃ = ' '
  | _ => false

/-- Split at the first occurrence of the column separator: the text
before it and the text after it; none when no separator occurs. -/
def sepSplitL : List Char → Option (List Char × List Char)
  | [] => none
  | c :: cs =>
    if sepHereL (c :: cs) then some ([], cs.drop 2)
    else (sepSplitL cs).map (fun pr => (c :: pr.1, pr.2))

/-- Modelled from the spec: the repository ships no parser for the
rendered report, so the round-trip bullet of section 8 is read against
the natural re-parse of the visible text - drop the two header lines,
and on every line holding a colon separator take the text before the
first separator with the alignment padding (trailing spaces) removed. -/
def parseLabelsVisible (s : String) : List String :=
  ((goSplitNlL s.data).drop 2).filterMap
    (fun line => (sepSplitL line).map (fun pr => (trimRightL pr.1).asString))

/-- Outcome of the `adb devices` listing process itself. -/
inductive ListingOutcome where
  | ok (output : String)
  | execFailure (errText : String)

/-- Result of the listing stage: either the program already exited or a
device list is produced. -/
inductive DirectoryResult where
  | exited (code : Nat)
  | devices (ids : List String)
deriving DecidableEq

/-- The error path of getConnectedDevices (main.go lines 48-53): a
failing `adb devices` invocation prints the error and exits 1; a
captured output is parsed as usual. -/
def getConnectedDevicesTop : ListingOutcome → DirectoryResult
  | .ok out => .devices (getConnectedDevices out)
  | .execFailure _ => .exited 1

/-! Support lemmas: character classes, decimal digits of Nat.repr,
trimming, line splitting and field splitting. -/

theorem goIsDigit_iff {c : Char} :
    goIsDigit c = true ↔ 48 ≤ c.toNat ∧ c.toNat ≤ 57 := by
  simp [goIsDigit]

theorem not_space_of_digit {c : Char} (h : goIsDigit c = true) :
    goIsSpace c = false := by
  have hb := goIsDigit_iff.mp h
  simp only [goIsSpace, Bool.or_eq_false_iff, decide_eq_false_iff_not]
  omega

theorem ne_nl_of_digit {c : Char} (h : goIsDigit c = true) : c ≠ '\n' := by
  intro he
  subst he
  exact absurd h (by decide)

theorem digitChar_spec {d : Nat} (h : d < 10) :
    goIsDigit (Nat.digitChar d) = true ∧ digitVal (Nat.digitChar d) = d := by
  interval_cases d <;> exact ⟨by decide, by decide⟩

theorem toDigitsCore_shift (b : Nat) :
    ∀ (fuel n : Nat) (ds : List Char),
      Nat.toDigitsCore b fuel n ds = Nat.toDigitsCore b fuel n [] ++ ds := by
  intro fuel
  induction fuel with
  | zero => intro n ds; rfl
  | succ f ih =>
    intro n ds
    simp only [Nat.toDigitsCore]
    by_cases h : n / b = 0
    · rw [if_pos h, if_pos h]
      rfl
    · rw [if_neg h, if_neg h, ih (n / b) (Nat.digitChar (n % b) :: ds),
        ih (n / b) [Nat.digitChar (n % b)]]
      simp

theorem toDigitsCore_spec :
    ∀ (fuel n : Nat), n < fuel →
      (∀ c ∈ Nat.toDigitsCore 10 fuel n [], goIsDigit c = true) ∧
      Nat.toDigitsCore 10 fuel n [] ≠ [] ∧
      valMSB (Nat.toDigitsCore 10 fuel n []) = n := by
  intro fuel
  induction fuel with
  | zero => intro n h; exact absurd h (Nat.not_lt_zero n)
  | succ f ih =>
    intro n h
    simp only [Nat.toDigitsCore]
    by_cases h10 : n / 10 = 0
    · rw [if_pos h10]
      have hn : n < 10 := by omega
      obtain ⟨hdc, hvc⟩ := digitChar_spec (show n % 10 < 10 by omega)
      refine ⟨?_, by simp, ?_⟩
      · intro c hc
        rw [List.mem_singleton] at hc
        subst hc
        exact hdc
      · show valMSB [Nat.digitChar (n % 10)] = n
        simp only [valMSB, List.foldl]
        rw [hvc]
        omega
    · rw [if_neg h10, toDigitsCore_shift]
      have h2 : n / 10 < f := by omega
      obtain ⟨hd, hne, hv⟩ := ih (n / 10) h2
      obtain ⟨hdc, hvc⟩ := digitChar_spec (show n % 10 < 10 by omega)
      refine ⟨?_, by simp, ?_⟩
      · intro c hc
        rcases List.mem_append.mp hc with hc | hc
        · exact hd c hc
        · rw [List.mem_singleton] at hc
          subst hc
          exact hdc
      · show valMSB (Nat.toDigitsCore 10 f (n / 10) [] ++ [Nat.digitChar (n % 10)]) = n
        simp only [valMSB, List.foldl_append, List.foldl]
        have : List.foldl (fun a c => 10 * a + digitVal c) 0
            (Nat.toDigitsCore 10 f (n / 10) []) = n / 10 := hv
        rw [this, hvc]
        omega

theorem repr_spec (n : Nat) :
    (∀ c ∈ (Nat.repr n).data, goIsDigit c = true) ∧
    (Nat.repr n).data ≠ [] ∧ valMSB ((Nat.repr n).data) = n := by
  have h : (Nat.repr n).data = Nat.toDigitsCore 10 (n + 1) n [] := rfl
  rw [h]
  exact toDigitsCore_spec (n + 1) n (Nat.lt_succ_self n)

theorem dropWhile_eq_self_of_all {α : Type} (p : α → Bool) (l : List α)
    (h : ∀ c ∈ l, p c = false) : l.dropWhile p = l := by
  cases l with
  | nil => rfl
  | cons c cs =>
    rw [List.dropWhile_cons, h c (List.mem_cons_self c cs)]
    simp

theorem trim_of_no_space (l : List Char) (h : ∀ c ∈ l, goIsSpace c = false) :
    goTrimSpaceL l = l := by
  unfold goTrimSpaceL trimLeftL trimRightL
  rw [dropWhile_eq_self_of_all _ _ h,
    dropWhile_eq_self_of_all _ _ (fun c hc => h c (List.mem_reverse.mp hc))]
  exact List.reverse_reverse l

theorem dropWhile_idem {α : Type} (p : α → Bool) (l : List α) :
    (l.dropWhile p).dropWhile p = l.dropWhile p := by
  induction l with
  | nil => rfl
  | cons c cs ih =>
    rw [List.dropWhile_cons]
    by_cases h : p c = true
    · rw [if_pos h]
      exact ih
    · rw [if_neg h, List.dropWhile_cons, if_neg h]

theorem dropWhile_head {α : Type} (p : α → Bool) (l : List α) :
    ∀ a, (l.dropWhile p).head? = some a → p a = false := by
  induction l with
  | nil => intro a ha; simp at ha
  | cons c cs ih =>
    intro a ha
    rw [List.dropWhile_cons] at ha
    by_cases h : p c = true
    · rw [if_pos h] at ha
      exact ih a ha
    · rw [if_neg h] at ha
      simp only [List.head?_cons, Option.some.injEq] at ha
      subst ha
      simpa using h

theorem dropWhile_eq_self_of_head {α : Type} (p : α → Bool) (l : List α)
    (h : ∀ a, l.head? = some a → p a = false) : l.dropWhile p = l := by
  cases l with
  | nil => rfl
  | cons c cs =>
    rw [List.dropWhile_cons, h c rfl]
    simp

theorem dropWhile_is_suffix {α : Type} (p : α → Bool) (l : List α) :
    ∃ t, t ++ l.dropWhile p = l := by
  induction l with
  | nil => exact ⟨[], rfl⟩
  | cons c cs ih =>
    rw [List.dropWhile_cons]
    by_cases h : p c = true
    · obtain ⟨t, ht⟩ := ih
      exact ⟨c :: t, by rw [if_pos h, List.cons_append, ht]⟩
    · exact ⟨[], by rw [if_neg h]; rfl⟩

theorem head?_trimRightL (l : List Char) :
    trimRightL l = [] ∨ (trimRightL l).head? = l.head? := by
  unfold trimRightL
  obtain ⟨t, ht⟩ := dropWhile_is_suffix goIsSpace l.reverse
  rcases hr : (l.reverse.dropWhile goIsSpace).reverse with _ | ⟨c, cs⟩
  · exact Or.inl rfl
  · right
    have hl : l = (c :: cs) ++ t.reverse := by
      have : l.reverse.reverse = (t ++ l.reverse.dropWhile goIsSpace).reverse := by
        rw [ht]
      rw [List.reverse_reverse, List.reverse_append] at this
      rw [this]
      rw [show (List.dropWhile goIsSpace l.reverse).reverse = c :: cs from hr]
  -- head of both sides is c
    rw [hl]
    rfl

theorem trimRightL_idem (l : List Char) :
    trimRightL (trimRightL l) = trimRightL l := by
  unfold trimRightL
  rw [List.reverse_reverse, dropWhile_idem]

theorem goTrimSpaceL_idem (l : List Char) :
    goTrimSpaceL (goTrimSpaceL l) = goTrimSpaceL l := by
  have h1 : trimLeftL (goTrimSpaceL l) = goTrimSpaceL l := by
    apply dropWhile_eq_self_of_head
    intro a ha
    rcases head?_trimRightL (trimLeftL l) with h | h
    · unfold goTrimSpaceL at ha
      rw [h] at ha
      simp at ha
    · unfold goTrimSpaceL at ha
      rw [h] at ha
      exact dropWhile_head goIsSpace l a ha
  show trimRightL (trimLeftL (goTrimSpaceL l)) = goTrimSpaceL l
  rw [h1]
  exact trimRightL_idem _

theorem goTrimSpace_idem (s : String) :
    goTrimSpace (goTrimSpace s) = goTrimSpace s :=
  congrArg List.asString (goTrimSpaceL_idem s.data)

theorem goSplitNlL_cons (c : Char) (cs : List Char) :
    goSplitNlL (c :: cs) =
      match goSplitNlL cs with
      | [] => [[]]
      | l :: ls => if c = '\n' then [] :: l :: ls else (c :: l) :: ls := rfl

theorem goSplitNlL_ne_nil (l : List Char) : goSplitNlL l ≠ [] := by
  cases l with
  | nil => simp [goSplitNlL]
  | cons c cs =>
    rw [goSplitNlL_cons]
    rcases goSplitNlL cs with _ | ⟨x, xs⟩
    · simp
    · by_cases h : c = '\n' <;> simp [h]

theorem goSplitNlL_append (l₁ l₂ : List Char) (h : '\n' ∉ l₁) :
    goSplitNlL (l₁ ++ '\n' :: l₂) = l₁ :: goSplitNlL l₂ := by
  induction l₁ with
  | nil =>
    rw [List.nil_append, goSplitNlL_cons]
    rcases hsp : goSplitNlL l₂ with _ | ⟨x, xs⟩
    · exact absurd hsp (goSplitNlL_ne_nil l₂)
    · simp
  | cons c cs ih =>
    have hc : c ≠ '\n' := fun he => h (by simp [he])
    have h' : '\n' ∉ cs := fun hm => h (List.mem_cons_of_mem _ hm)
    rw [List.cons_append, goSplitNlL_cons, ih h']
    simp [hc]

theorem goSplitNlL_no_nl (l : List Char) (h : '\n' ∉ l) :
    goSplitNlL l = [l] := by
  induction l with
  | nil => rfl
  | cons c cs ih =>
    have hc : c ≠ '\n' := fun he => h (by simp [he])
    have h' : '\n' ∉ cs := fun hm => h (List.mem_cons_of_mem _ hm)
    rw [goSplitNlL_cons, ih h']
    simp [hc]

theorem goFieldsL_append_space (w rest : List Char)
    (hw : ∀ c ∈ w, goIsSpace c = false) (hne : w ≠ []) :
    goFieldsL (w ++ ' ' :: rest) = w :: goFieldsL rest := by
  cases w with
  | nil => exact absurd rfl hne
  | cons d w' =>
    have hd : goIsSpace d = false := hw d (List.mem_cons_self d w')
    have hw' : ∀ a ∈ w', (fun x => !goIsSpace x) a = true := by
      intro a ha
      simp [hw a (List.mem_cons_of_mem _ ha)]
    rw [List.cons_append, goFieldsL_cons, if_neg (by simp [hd])]
    rw [List.takeWhile_append_of_pos hw', List.dropWhile_append_of_pos hw']
    rw [show List.takeWhile (fun x => !goIsSpace x) (' ' :: rest) = [] by
      rw [List.takeWhile_cons, if_neg (by decide)]]
    rw [show List.dropWhile (fun x => !goIsSpace x) (' ' :: rest) = ' ' :: rest by
      rw [List.dropWhile_cons, if_neg (by decide)]]
    rw [List.append_nil, goFieldsL_cons, if_pos (by decide)]

theorem goFieldsL_all_nonspace (w : List Char)
    (hw : ∀ c ∈ w, goIsSpace c = false) (hne : w ≠ []) :
    goFieldsL w = [w] := by
  cases w with
  | nil => exact absurd rfl hne
  | cons d w' =>
    have hd : goIsSpace d = false := hw d (List.mem_cons_self d w')
    have hw' : ∀ a ∈ w', (fun x => !goIsSpace x) a = true := by
      intro a ha
      simp [hw a (List.mem_cons_of_mem _ ha)]
    rw [goFieldsL_cons, if_neg (by simp [hd])]
    rw [show w' = w' ++ [] from (List.append_nil w').symm,
      List.takeWhile_append_of_pos hw', List.dropWhile_append_of_pos hw']
    simp [goFieldsL, goFieldsFuel]

theorem goFieldsL_ne_nil (l : List Char) (h : goTrimSpaceL l ≠ []) :
    goFieldsL l ≠ [] := by
  induction l with
  | nil => simp [goTrimSpaceL, trimLeftL, trimRightL] at h
  | cons c cs ih =>
    rw [goFieldsL_cons]
    by_cases hc : goIsSpace c = true
    · rw [if_pos hc]
      apply ih
      have he : goTrimSpaceL (c :: cs) = goTrimSpaceL cs := by
        unfold goTrimSpaceL trimLeftL
        rw [List.dropWhile_cons, if_pos hc]
      rwa [he] at h
    · rw [if_neg hc]
      simp

theorem takeWhile_all {α : Type} (p : α → Bool) (l : List α)
    (h : ∀ a ∈ l, p a = true) : l.takeWhile p = l := by
  have h2 := @List.takeWhile_append_of_pos α p l [] h
  simpa using h2

theorem scanIntL_digits (l : List Char) (hne : l ≠ [])
    (hd : ∀ c ∈ l, goIsDigit c = true) :
    scanIntL l = some ((valMSB l : Int)) := by
  cases l with
  | nil => exact absurd rfl hne
  | cons c cs =>
    have hc := hd c (List.mem_cons_self c cs)
    have h1 : c ≠ '-' := by
      intro he; rw [he] at hc; exact absurd hc (by decide)
    have h2 : c ≠ '+' := by
      intro he; rw [he] at hc; exact absurd hc (by decide)
    simp only [scanIntL]
    rw [if_neg h1, if_neg h2]
    unfold scanNatL
    rw [takeWhile_all _ _ hd]
    rfl

theorem scanIntL_repr (n : Nat) :
    scanIntL (goTrimSpaceL (Nat.repr n).data) = some ((n : Int)) := by
  obtain ⟨hd, hne, hv⟩ := repr_spec n
  rw [trim_of_no_space _ (fun c hc => not_space_of_digit (hd c hc)),
    scanIntL_digits _ hne hd, hv]

theorem atoiOr0L_digits (l : List Char) (hne : l ≠ [])
    (hd : ∀ c ∈ l, goIsDigit c = true)
    (hbound : (valMSB l : Int) ≤ goMaxInt) :
    atoiOr0L l = (valMSB l : Int) := by
  cases l with
  | nil => exact absurd rfl hne
  | cons c cs =>
    have hc := hd c (List.mem_cons_self c cs)
    have h1 : c ≠ '-' := by
      intro he; rw [he] at hc; exact absurd hc (by decide)
    have h2 : c ≠ '+' := by
      intro he; rw [he] at hc; exact absurd hc (by decide)
    unfold atoiOr0L
    simp only [atoiL]
    rw [if_neg h1, if_neg h2]
    unfold atoiNatL
    rw [if_pos ⟨by simp, List.all_eq_true.mpr hd⟩]
    show goIntClamp ((valMSB (c :: cs) : Int)) = (valMSB (c :: cs) : Int)
    unfold goMaxInt at hbound
    unfold goIntClamp goMaxInt goMinInt
    rw [if_neg (by omega), if_neg (by omega)]

theorem startsWithL_append_of_le (p a rest : List Char)
    (hle : p.length ≤ a.length) :
    startsWithL p (a ++ rest) = startsWithL p a := by
  induction p generalizing a with
  | nil => rfl
  | cons q qs ih =>
    cases a with
    | nil => simp at hle
    | cons b bs =>
      simp only [List.cons_append, startsWithL]
      congr 1
      exact ih bs (by simp at hle; omega)

theorem sepSplitL_boundary (a rest : List Char) (hc : ':' ∉ a) :
    sepSplitL (a ++ ' ' :: ':' :: ' ' :: rest) = some (a, rest) := by
  induction a with
  | nil => rfl
  | cons b a' ih =>
    have hb : ':' ∉ a' := fun hm => hc (List.mem_cons_of_mem _ hm)
    have key : ∀ (l : List Char), sepHereL l = true →
        ∀ x y t, l = x :: y :: t → x = ' ' ∧ y = ':' := by
      intro l hl x y t he
      subst he
      cases t with
      | nil => simp [sepHereL] at hl
      | cons z t' =>
        simp only [sepHereL, Bool.and_eq_true, decide_eq_true_eq] at hl
        exact ⟨hl.1.1, hl.1.2⟩
    simp only [List.cons_append, sepSplitL, List.append_eq]
    rw [if_neg ?hfalse]
    · rw [ih hb]
      rfl
    case hfalse =>
      intro hsep
      cases a' with
      | nil =>
        have h2 := key _ hsep b ' ' (':' :: ' ' :: rest) (by simp)
        exact absurd h2.2 (by decide)
      | cons x a'' =>
        have h2 := key _ hsep b x (a'' ++ ' ' :: ':' :: ' ' :: rest)
          (by simp)
        exact hc (h2.2 ▸ List.mem_cons_of_mem b (List.mem_cons_self x _))

theorem trimRightL_pad (l : List Char) (w : Nat) :
    trimRightL (padRightL l w) = trimRightL l := by
  unfold padRightL trimRightL
  rw [List.reverse_append, List.reverse_replicate,
    List.dropWhile_append_of_pos ?hsp]
  case hsp =>
    intro a ha
    rw [List.eq_of_mem_replicate ha]
    decide

theorem reportBody_parse (w : Nat) (entries : List DeviceInfo)
    (hgood : ∀ i ∈ entries, '\n' ∉ i.property.data ∧ ':' ∉ i.property.data ∧
      trimRightL i.property.data = i.property.data ∧ '\n' ∉ i.value.data) :
    (goSplitNlL ((entries.map
        (fun i => entryLineL i.property.data i.value.data w)).flatten)).filterMap
      (fun line => (sepSplitL line).map (fun pr => (trimRightL pr.1).asString)) =
    entries.map (fun i => i.property) := by
  induction entries with
  | nil => rfl
  | cons i is ih =>
    obtain ⟨hnp, hcp, htp, hnv⟩ := hgood i (List.mem_cons_self _ _)
    have hrest := fun j hj => hgood j (List.mem_cons_of_mem _ hj)
    simp only [List.map_cons, List.flatten_cons]
    have hshape : entryLineL i.property.data i.value.data w ++
        ((is.map (fun j => entryLineL j.property.data j.value.data w)).flatten) =
        (padRightL i.property.data w ++ ' ' :: ':' :: ' ' :: i.value.data) ++
          '\n' ::
          ((is.map (fun j => entryLineL j.property.data j.value.data w)).flatten) := by
      unfold entryLineL
      simp [List.append_assoc]
    rw [hshape, goSplitNlL_append _ _ ?hnl]
    · simp only [List.filterMap_cons]
      have hcc : ':' ∉ padRightL i.property.data w := by
        intro hm
        rcases List.mem_append.mp hm with hx | hx
        · exact hcp hx
        · exact absurd (List.eq_of_mem_replicate hx) (by decide)
      rw [sepSplitL_boundary _ _ hcc]
      show ((trimRightL (padRightL i.property.data w)).asString ::
        (goSplitNlL _).filterMap _) = _
      rw [trimRightL_pad, htp, ih hrest]
      rfl
    case hnl =>
      intro hm
      rcases List.mem_append.mp hm with hx | hx
      · rcases List.mem_append.mp hx with hy | hy
        · exact hnp hy
        · exact absurd (List.eq_of_mem_replicate hy) (by decide)
      · rcases List.mem_cons.mp hx with hy | hy
        · exact absurd hy (by decide)
        · rcases List.mem_cons.mp hy with hz | hz
          · exact absurd hz (by decide)
          · rcases List.mem_cons.mp hz with hu | hu
            · exact absurd hu (by decide)
            · exact hnv hu

theorem no_nl_of_digits (w : List Char)
    (hd : ∀ c ∈ w, goIsDigit c = true) : '\n' ∉ w :=
  fun hm => absurd (hd _ hm) (by decide)

/-! Claim theorems. -/

/-- C1 (amended): for every device identifier, command string, timeout
and process outcome, runAdbCommandWithTimeout returns the distinguished
timed-out sentinel when the deadline elapses and the not-available
sentinel when the process fails otherwise, while runAdbCommand of
main.go and adbctl.go degrades every failure, the elapsed deadline
included, to the single not-available sentinel; both are total Lean
functions, so no failure case raises or terminates the caller. -/
theorem runner_failure_sentinels (deviceID command : String) (timeout : Nat) :
    runAdbCommandWithTimeout deviceID command timeout .timedOut =
      "Error: Command timed out" ∧
    runAdbCommandWithTimeout deviceID command timeout .execFailure = "n/a" ∧
    runAdbCommand deviceID command timeout .timedOut = "n/a" ∧
    runAdbCommand deviceID command timeout .execFailure = "n/a" :=
  ⟨rfl, rfl, rfl, rfl⟩

/-- C1 counterexample: runAdbCommand (main.go lines 34-45) applied to an
elapsed deadline returns the not-available sentinel "n/a", not the
distinguished timed-out sentinel the claim requires of the command
runner. -/
theorem runAdbCommand_timeout_counterexample :
    runAdbCommand "G070VM1904640A1B" "getprop ro.product.model" 5
        .timedOut = "n/a" ∧
    ("n/a" : String) ≠ "Error: Command timed out" :=
  ⟨rfl, by decide⟩

/-- C6 (amended): on a successful process, runAdbCommandWithTimeout
returns the trimmed output, degraded to the not-available sentinel when
the trimmed result is empty (and hence never returns the empty string),
while runAdbCommand of main.go and adbctl.go returns the trimmed output
unconditionally, even when it is empty; the returned text carries no
leading or trailing white space, trimming being idempotent. -/
theorem runner_success_trimming (deviceID command : String) (timeout : Nat)
    (out : String) :
    runAdbCommandWithTimeout deviceID command timeout (.success out) =
      (if goTrimSpace out = "" then "n/a" else goTrimSpace out) ∧
    runAdbCommand deviceID command timeout (.success out) = goTrimSpace out ∧
    runAdbCommandWithTimeout deviceID command timeout (.success out) ≠ "" ∧
    goTrimSpace (goTrimSpace out) = goTrimSpace out := by
  refine ⟨rfl, rfl, ?_, goTrimSpace_idem out⟩
  show (if goTrimSpace out = "" then "n/a" else goTrimSpace out) ≠ ""
  by_cases h : goTrimSpace out = ""
  · rw [if_pos h]
    decide
  · rw [if_neg h]
    exact h

/-- C6 counterexample: a successful process whose output is only white
space makes runAdbCommand (main.go lines 34-45) return the empty string,
not the not-available sentinel the claim requires for an empty trimmed
result. -/
theorem runAdbCommand_empty_counterexample :
    runAdbCommand "emulator-5554" "getprop ro.crypto.state" 5
        (.success " \n") = "" ∧
    ("" : String) ≠ "n/a" :=
  ⟨rfl, by decide⟩

/-- C4: selectDevice on an empty device list exits the program with
status 1 whatever the console input holds, and on a one-element list
returns that device with zero prompts, never touching the input queue. -/
theorem selectDevice_zero_one (inputs : List String) (d : String) :
    selectDevice [] inputs = SelectResult.exited 1 ∧
    selectDevice [d] inputs = SelectResult.selected d 0 :=
  ⟨rfl, rfl⟩

/-- C5: checkDeviceConnectivity classifies the probe outcome as exactly
one of success, timed out or failed, the two failure diagnostics are
distinct for every timeout and error text, and the program gate
proceeds to property collection only on success, exiting with status 1
on either failure. -/
theorem connectivity_classification (deviceID : String) (timeout : Nat)
    (errText : String) :
    checkDeviceConnectivity deviceID timeout .ok = none ∧
    checkDeviceConnectivity deviceID timeout .timedOut =
      some (timeoutMsg timeout) ∧
    checkDeviceConnectivity deviceID timeout (.failed errText) =
      some (failMsg errText) ∧
    timeoutMsg timeout ≠ failMsg errText ∧
    connectivityGate (checkDeviceConnectivity deviceID timeout .ok) =
      .proceedToReport ∧
    connectivityGate (checkDeviceConnectivity deviceID timeout .timedOut) =
      .exitedOne ∧
    connectivityGate (checkDeviceConnectivity deviceID timeout (.failed errText)) =
      .exitedOne := by
  refine ⟨rfl, rfl, rfl, ?_, rfl, rfl, rfl⟩
  intro h
  have h2 : (timeoutMsg timeout).data.head? = (failMsg errText).data.head? := by
    rw [h]
  rw [show (timeoutMsg timeout).data.head? = some 'd' from rfl,
    show (failMsg errText).data.head? = some 'f' from rfl] at h2
  exact absurd h2 (by decide)

/-- C7: evaluation of the meminfo scanning loop at the malformed input
named by the claim - a line that is exactly "MemTotal:" with no value
field. The loop matches the MemTotal prefix and then indexes
strings.Fields(line)[1] on a one-field line, which panics in Go; the
embedding returns the panic marker none instead of a value. -/
theorem parseMemInfo_panic_on_bare_key :
    parseMemInfoKB "MemTotal:" = none := by decide

/-- C10: when the `adb devices` process itself fails, the listing stage
prints the error and exits the whole program with status 1, never
producing a device list; a captured output is parsed as usual. -/
theorem devicesListing_error_exits :
    (∀ errText, getConnectedDevicesTop (.execFailure errText) =
      DirectoryResult.exited 1) ∧
    (∀ errText ids, getConnectedDevicesTop (.execFailure errText) ≠
      DirectoryResult.devices ids) ∧
    (∀ out, getConnectedDevicesTop (.ok out) =
      DirectoryResult.devices (getConnectedDevices out)) := by
  refine ⟨fun _ => rfl, ?_, fun _ => rfl⟩
  intro errText ids h
  exact DirectoryResult.noConfusion h

/-- C2: getConnectedDevices equals the parsing rule written in the spec -
skip the header line, drop blank lines and lines ending in "offline",
and return the first whitespace-delimited token of every remaining line
in input order; consequently it returns exactly one identifier per
well-formed non-offline line after the header (the countP clause), and
every kept line really has a first token to return. -/
theorem listDevices_parsing (output : String) :
    getConnectedDevices output = listDevicesSpec output ∧
    (getConnectedDevices output).length =
      ((goSplitNlL output.data).drop 1).countP lineGood ∧
    ∀ l ∈ (goSplitNlL output.data).drop 1, lineGood l = true →
      goFieldsL l ≠ [] := by
  have key : ∀ ls : List (List Char), collectDevicesL ls =
      (ls.filter lineGood).map (fun l => (goFieldsL l).headD []) := by
    intro ls
    induction ls with
    | nil => rfl
    | cons x xs ih =>
      simp only [collectDevicesL, List.filter_cons]
      by_cases h : lineGood x = true
      · rw [if_pos h, if_pos h, List.map_cons, ih]
      · rw [if_neg h, if_neg h, ih]
  refine ⟨?_, ?_, ?_⟩
  · unfold getConnectedDevices listDevicesSpec
    rw [key]
  · unfold getConnectedDevices
    rw [key, List.length_map, List.length_map, List.countP_eq_length_filter]
  · intro l _ hgood
    apply goFieldsL_ne_nil
    unfold lineGood at hgood
    simp only [Bool.and_eq_true, decide_eq_true_eq] at hgood
    exact hgood.1

/-- C2 witness: the parsing equivalence evaluated at a concrete listing
that has a header, one usable device, one offline device and a trailing
blank line. -/
theorem listDevices_parsing_witness :
    getConnectedDevices
        "List of devices attached\nemulator-5554\tdevice\nG070VM1904640A1B offline\n\n" =
      listDevicesSpec
        "List of devices attached\nemulator-5554\tdevice\nG070VM1904640A1B offline\n\n" ∧
    (getConnectedDevices
        "List of devices attached\nemulator-5554\tdevice\nG070VM1904640A1B offline\n\n").length =
      ((goSplitNlL ("List of devices attached\nemulator-5554\tdevice\nG070VM1904640A1B offline\n\n" : String).data).drop 1).countP
        lineGood ∧
    ∀ l ∈ (goSplitNlL ("List of devices attached\nemulator-5554\tdevice\nG070VM1904640A1B offline\n\n" : String).data).drop 1,
      lineGood l = true → goFieldsL l ≠ [] :=
  listDevices_parsing _

/-- C3: with more than one device attached, selectDevice accepts only a
1-based index strictly within range - any line whose scanned value is
missing or out of range adds exactly one prompt and leaves the outcome
otherwise unchanged - and feeding the lines "abc", "0", the decimal text
of K+1 and "2" returns the second device after exactly four prompts. -/
theorem selectDevice_interactive (devices : List String)
    (h : 1 < devices.length) :
    selectDevice devices ["abc", "0", toString (devices.length + 1), "2"] =
      SelectResult.selected (devices.getD 1 "") 4 ∧
    ∀ (input : String) (rest : List String),
      (∀ idx, scanIntL (goTrimSpaceL input.data) = some idx →
        ¬(0 < idx ∧ idx ≤ (devices.length : Int))) →
      selectDevice devices (input :: rest) =
        promptStep (selectDevice devices rest) := by
  have h0 : ¬devices.length = 0 := by omega
  have h1 : ¬devices.length = 1 := by omega
  constructor
  · have s1 : scanIntL (goTrimSpaceL ("abc" : String).data) = none := by decide
    have s2 : scanIntL (goTrimSpaceL ("0" : String).data) = some 0 := by decide
    have s3 : scanIntL (goTrimSpaceL (toString (devices.length + 1)).data) =
        some ((devices.length + 1 : Nat) : Int) :=
      scanIntL_repr (devices.length + 1)
    have s4 : scanIntL (goTrimSpaceL ("2" : String).data) = some 2 := by decide
    have c2 : ¬(0 < (0 : Int) ∧ (0 : Int) ≤ (devices.length : Int)) := by
      omega
    have c3 : ¬(0 < ((devices.length + 1 : Nat) : Int) ∧
        ((devices.length + 1 : Nat) : Int) ≤ (devices.length : Int)) := by
      push_cast
      omega
    have c4 : 0 < (2 : Int) ∧ (2 : Int) ≤ (devices.length : Int) := by
      constructor
      · decide
      · exact_mod_cast Nat.le_of_lt_succ (Nat.succ_lt_succ h)
    have hloop : selectLoop devices
        ["abc", "0", toString (devices.length + 1), "2"] =
        some (devices.getD 1 "", 4) := by
      simp only [selectLoop, s1, s2, s3, s4]
      rw [if_neg c2, if_neg c3, if_pos c4]
      rfl
    unfold selectDevice
    rw [if_neg h0, if_neg h1, hloop]
  · intro input rest hbad
    unfold selectDevice
    rw [if_neg h0, if_neg h1, if_neg h0, if_neg h1]
    have hstep : selectLoop devices (input :: rest) =
        promptRetry (selectLoop devices rest) := by
      simp only [selectLoop]
      rcases hscan : scanIntL (goTrimSpaceL input.data) with _ | idx
      · rfl
      · show (if 0 < idx ∧ idx ≤ (devices.length : Int) then
            some (devices.getD (idx.toNat - 1) "", 1)
          else promptRetry (selectLoop devices rest)) =
          promptRetry (selectLoop devices rest)
        rw [if_neg (hbad idx hscan)]
    rw [hstep]
    rcases selectLoop devices rest with _ | ⟨d, n⟩
    · rfl
    · rfl

/-- C3 witness: three devices and the input lines "abc", "0", "4", "2"
select the second device after exactly four prompts. -/
theorem selectDevice_interactive_witness :
    selectDevice ["dev-a", "dev-b", "dev-c"]
        ["abc", "0", toString ((["dev-a", "dev-b", "dev-c"] : List String).length + 1), "2"] =
      SelectResult.selected (["dev-a", "dev-b", "dev-c"].getD 1 "") 4 :=
  (selectDevice_interactive ["dev-a", "dev-b", "dev-c"] (by decide)).1

/-- C9 (amended): formatting a report and re-parsing the visible text
recovers the labels in report order, for every entry list whose labels
hold no newline and no colon and do not end in a space, and whose values
hold no newline; the counterexample theorem shows the restriction on
colons inside labels is needed. -/
theorem formatOutput_label_roundtrip (info : List DeviceInfo)
    (h : ∀ i ∈ info, '\n' ∉ i.property.data ∧ ':' ∉ i.property.data ∧
      trimRightL i.property.data = i.property.data ∧ '\n' ∉ i.value.data) :
    parseLabelsVisible (formatOutput info) = info.map (fun i => i.property) := by
  unfold parseLabelsVisible formatOutput
  have h1 : ("Device Information:\n".data ++
      (List.replicate 20 '=' ++ "\n".data) ++
      (info.map (fun i =>
        entryLineL i.property.data i.value.data (maxPropLen info))).flatten) =
      "Device Information:".data ++ '\n' ::
      (List.replicate 20 '=' ++ '\n' ::
        (info.map (fun i =>
          entryLineL i.property.data i.value.data (maxPropLen info))).flatten) := by
    rw [show "Device Information:\n".data =
      "Device Information:".data ++ ['\n'] from rfl,
      show "\n".data = ['\n'] from rfl]
    simp [List.append_assoc]
  show ((goSplitNlL ("Device Information:\n".data ++
      (List.replicate 20 '=' ++ "\n".data) ++
      (info.map (fun i =>
        entryLineL i.property.data i.value.data (maxPropLen info))).flatten)).drop 2).filterMap
      (fun line => (sepSplitL line).map (fun pr => (trimRightL pr.1).asString)) = _
  rw [h1, goSplitNlL_append _ _ (by decide),
    goSplitNlL_append _ _ (fun hm =>
      absurd (List.eq_of_mem_replicate hm) (by decide))]
  show (goSplitNlL ((info.map (fun i =>
      entryLineL i.property.data i.value.data (maxPropLen info))).flatten)).filterMap
      (fun line => (sepSplitL line).map (fun pr => (trimRightL pr.1).asString)) = _
  exact reportBody_parse (maxPropLen info) info h

/-- C9 witness: a two-entry report with ordinary labels round-trips to
its labels in order. -/
theorem formatOutput_label_roundtrip_witness :
    parseLabelsVisible (formatOutput
        [⟨"Model", "AFTKM"⟩, ⟨"Android Version", "9"⟩]) =
      ([⟨"Model", "AFTKM"⟩, ⟨"Android Version", "9"⟩] : List DeviceInfo).map
        (fun i => i.property) :=
  formatOutput_label_roundtrip _ (by decide)

/-- C9 counterexample: a label holding a space-framed colon is cut at
its first colon separator by any re-parse of the visible text, so the
round-trip of the claim fails on the entry list [("a :", "v")]. -/
theorem formatOutput_roundtrip_counterexample :
    parseLabelsVisible (formatOutput [⟨"a :", "v"⟩]) = ["a"] ∧
    (["a"] : List String) ≠
      ([⟨"a :", "v"⟩] : List DeviceInfo).map (fun i => i.property) :=
  ⟨by decide, by decide⟩

theorem memScan_cons_total (line : List Char) (rest : List (List Char))
    (t f a : Int) (k v : List Char) (tl : List (List Char))
    (hs : startsWithL "MemTotal:".data line = true)
    (hf : goFieldsL line = k :: v :: tl) :
    memScan (line :: rest) (t, f, a) = memScan rest (atoiOr0L v, f, a) := by
  simp only [memScan]
  rw [hs, if_pos rfl, hf]

theorem memScan_cons_avail (line : List Char) (rest : List (List Char))
    (t f a : Int) (k v : List Char) (tl : List (List Char))
    (h1 : startsWithL "MemTotal:".data line = false)
    (h2 : startsWithL "MemFree:".data line = false)
    (h3 : startsWithL "MemAvailable:".data line = true)
    (hf : goFieldsL line = k :: v :: tl) :
    memScan (line :: rest) (t, f, a) = memScan rest (t, f, atoiOr0L v) := by
  simp only [memScan]
  rw [h1, if_neg (by decide), h2, if_neg (by decide), h3, if_pos rfl, hf]

/-- C8 (amended): for every pair of values within the platform integer
range of every shipped build target (both below 2 ^ 31, inside the int
range of the 32-bit and the 64-bit builds alike), scanning the
synthetic meminfo text with a MemTotal line and a MemAvailable line
yields exactly those two values, and the used-memory value computed by
the parsing equals total minus available, exactly, as integer
arithmetic; the counterexample theorem shows the bound is needed, Atoi
clamping any out-of-range value to the int maximum. -/
theorem memUsed_exact (memTotalKB memAvailableKB : Nat)
    (hT : memTotalKB < 2147483648) (hA : memAvailableKB < 2147483648) :
    parseMemInfoKB (mkMemInfo memTotalKB memAvailableKB) =
      some ((memTotalKB : Int), 0, (memAvailableKB : Int),
        (memTotalKB : Int) - (memAvailableKB : Int)) := by
  obtain ⟨hdT, hneT, hvT⟩ := repr_spec memTotalKB
  obtain ⟨hdA, hneA, hvA⟩ := repr_spec memAvailableKB
  have hdata : (mkMemInfo memTotalKB memAvailableKB).data =
      ("MemTotal:".data ++ ' ' ::
        ((Nat.repr memTotalKB).data ++ ' ' :: "kB".data)) ++ '\n' ::
      ("MemAvailable:".data ++ ' ' ::
        ((Nat.repr memAvailableKB).data ++ ' ' :: "kB".data)) := by
    simp only [mkMemInfo]
    rw [show (toString memTotalKB) = Nat.repr memTotalKB from rfl,
      show (toString memAvailableKB) = Nat.repr memAvailableKB from rfl]
    simp [List.append_assoc]
  have hno1 : '\n' ∉ ("MemTotal:".data ++ ' ' ::
      ((Nat.repr memTotalKB).data ++ ' ' :: "kB".data)) := by
    intro hm
    rcases List.mem_append.mp hm with hx | hx
    · revert hx; decide
    · rcases List.mem_cons.mp hx with hy | hy
      · exact absurd hy (by decide)
      · rcases List.mem_append.mp hy with hz | hz
        · exact absurd (hdT _ hz) (by decide)
        · rcases List.mem_cons.mp hz with hu | hu
          · exact absurd hu (by decide)
          · revert hu; decide
  have hno2 : '\n' ∉ ("MemAvailable:".data ++ ' ' ::
      ((Nat.repr memAvailableKB).data ++ ' ' :: "kB".data)) := by
    intro hm
    rcases List.mem_append.mp hm with hx | hx
    · revert hx; decide
    · rcases List.mem_cons.mp hx with hy | hy
      · exact absurd hy (by decide)
      · rcases List.mem_append.mp hy with hz | hz
        · exact absurd (hdA _ hz) (by decide)
        · rcases List.mem_cons.mp hz with hu | hu
          · exact absurd hu (by decide)
          · revert hu; decide
  have hsplit : goSplitNlL (mkMemInfo memTotalKB memAvailableKB).data =
      [("MemTotal:".data ++ ' ' ::
          ((Nat.repr memTotalKB).data ++ ' ' :: "kB".data)),
        ("MemAvailable:".data ++ ' ' ::
          ((Nat.repr memAvailableKB).data ++ ' ' :: "kB".data))] := by
    rw [hdata, goSplitNlL_append _ _ hno1, goSplitNlL_no_nl _ hno2]
  have hnsT : ∀ c ∈ (Nat.repr memTotalKB).data, goIsSpace c = false :=
    fun c hc => not_space_of_digit (hdT c hc)
  have hnsA : ∀ c ∈ (Nat.repr memAvailableKB).data, goIsSpace c = false :=
    fun c hc => not_space_of_digit (hdA c hc)
  have hfT : goFieldsL ("MemTotal:".data ++ ' ' ::
      ((Nat.repr memTotalKB).data ++ ' ' :: "kB".data)) =
      ["MemTotal:".data, (Nat.repr memTotalKB).data, "kB".data] := by
    rw [goFieldsL_append_space _ _ (by decide) (by decide),
      goFieldsL_append_space _ _ hnsT hneT,
      show goFieldsL "kB".data = ["kB".data] from by decide]
  have hfA : goFieldsL ("MemAvailable:".data ++ ' ' ::
      ((Nat.repr memAvailableKB).data ++ ' ' :: "kB".data)) =
      ["MemAvailable:".data, (Nat.repr memAvailableKB).data, "kB".data] := by
    rw [goFieldsL_append_space _ _ (by decide) (by decide),
      goFieldsL_append_space _ _ hnsA hneA,
      show goFieldsL "kB".data = ["kB".data] from by decide]
  have hs1 : startsWithL "MemTotal:".data ("MemTotal:".data ++ ' ' ::
      ((Nat.repr memTotalKB).data ++ ' ' :: "kB".data)) = true :=
    startsWithL_append _ _
  have hs2 : startsWithL "MemTotal:".data ("MemAvailable:".data ++ ' ' ::
      ((Nat.repr memAvailableKB).data ++ ' ' :: "kB".data)) = false := by
    rw [startsWithL_append_of_le _ _ _ (by decide)]
    decide
  have hs3 : startsWithL "MemFree:".data ("MemAvailable:".data ++ ' ' ::
      ((Nat.repr memAvailableKB).data ++ ' ' :: "kB".data)) = false := by
    rw [startsWithL_append_of_le _ _ _ (by decide)]
    decide
  have hs4 : startsWithL "MemAvailable:".data ("MemAvailable:".data ++ ' ' ::
      ((Nat.repr memAvailableKB).data ++ ' ' :: "kB".data)) = true :=
    startsWithL_append _ _
  have haT : atoiOr0L (Nat.repr memTotalKB).data = (memTotalKB : Int) := by
    rw [atoiOr0L_digits _ hneT hdT
      (by rw [hvT]; unfold goMaxInt; omega), hvT]
  have haA : atoiOr0L (Nat.repr memAvailableKB).data =
      (memAvailableKB : Int) := by
    rw [atoiOr0L_digits _ hneA hdA
      (by rw [hvA]; unfold goMaxInt; omega), hvA]
  unfold parseMemInfoKB
  rw [hsplit, memScan_cons_total _ _ _ _ _ _ _ _ hs1 hfT,
    memScan_cons_avail _ _ _ _ _ _ _ _ hs2 hs3 hs4 hfA,
    show memScan [] (atoiOr0L (Nat.repr memTotalKB).data, 0,
      atoiOr0L (Nat.repr memAvailableKB).data) =
      some (atoiOr0L (Nat.repr memTotalKB).data, 0,
        atoiOr0L (Nat.repr memAvailableKB).data) from rfl,
    haT, haA]
  rfl

/-- C1 witness: the amended sentinel behaviour at a concrete device,
command and timeout. -/
theorem runner_failure_sentinels_witness :
    runAdbCommandWithTimeout "emulator-5554" "getprop ro.product.model" 5
      .timedOut = "Error: Command timed out" ∧
    runAdbCommandWithTimeout "emulator-5554" "getprop ro.product.model" 5
      .execFailure = "n/a" ∧
    runAdbCommand "emulator-5554" "getprop ro.product.model" 5
      .timedOut = "n/a" ∧
    runAdbCommand "emulator-5554" "getprop ro.product.model" 5
      .execFailure = "n/a" :=
  runner_failure_sentinels "emulator-5554" "getprop ro.product.model" 5

/-- C6 witness: the amended success-path behaviour at a concrete call
whose output carries surrounding white space. -/
theorem runner_success_trimming_witness :
    runAdbCommandWithTimeout "emulator-5554" "getprop ro.product.model" 5
      (.success " AFTKM \n") =
      (if goTrimSpace " AFTKM \n" = "" then "n/a"
        else goTrimSpace " AFTKM \n") ∧
    runAdbCommand "emulator-5554" "getprop ro.product.model" 5
      (.success " AFTKM \n") = goTrimSpace " AFTKM \n" ∧
    runAdbCommandWithTimeout "emulator-5554" "getprop ro.product.model" 5
      (.success " AFTKM \n") ≠ "" ∧
    goTrimSpace (goTrimSpace " AFTKM \n") = goTrimSpace " AFTKM \n" :=
  runner_success_trimming "emulator-5554" "getprop ro.product.model" 5
    " AFTKM \n"

/-- C4 witness: the zero-device and one-device behaviour at concrete
inputs. -/
theorem selectDevice_zero_one_witness :
    selectDevice [] ["1"] = SelectResult.exited 1 ∧
    selectDevice ["only-dev"] ["1"] = SelectResult.selected "only-dev" 0 :=
  selectDevice_zero_one ["1"] "only-dev"

/-- C5 witness: the probe classification at a concrete device, timeout
and error text. -/
theorem connectivity_classification_witness :
    checkDeviceConnectivity "emulator-5554" 5 .ok = none ∧
    checkDeviceConnectivity "emulator-5554" 5 .timedOut =
      some (timeoutMsg 5) ∧
    checkDeviceConnectivity "emulator-5554" 5 (.failed "exit status 1") =
      some (failMsg "exit status 1") ∧
    timeoutMsg 5 ≠ failMsg "exit status 1" ∧
    connectivityGate (checkDeviceConnectivity "emulator-5554" 5 .ok) =
      .proceedToReport ∧
    connectivityGate (checkDeviceConnectivity "emulator-5554" 5 .timedOut) =
      .exitedOne ∧
    connectivityGate
        (checkDeviceConnectivity "emulator-5554" 5 (.failed "exit status 1")) =
      .exitedOne :=
  connectivity_classification "emulator-5554" 5 "exit status 1"

/-- C8 witness: the exact values of the spec test bullet,
MemTotal 1048576 kB and MemAvailable 524288 kB, both well inside the
int range of every build target. -/
theorem memUsed_exact_witness :
    parseMemInfoKB (mkMemInfo 1048576 524288) =
      some (((1048576 : Nat) : Int), 0, ((524288 : Nat) : Int),
        ((1048576 : Nat) : Int) - ((524288 : Nat) : Int)) :=
  memUsed_exact 1048576 524288 (by decide) (by decide)

/-- C8 counterexample: a MemTotal value of 2 ^ 63, one past the 64-bit
int range, is clamped by strconv.Atoi to MaxInt64 with the range error
discarded (the 32-bit build targets clamp even earlier, at 2 ^ 31 - 1),
so the computed used value is the clamp, not T - A; the exactness of
the claim therefore fails for out-of-range values. -/
theorem memUsed_overflow_counterexample :
    parseMemInfoKB (mkMemInfo 9223372036854775808 0) =
      some (9223372036854775807, 0, 0, 9223372036854775807) ∧
    (9223372036854775807 : Int) ≠
      ((9223372036854775808 : Nat) : Int) - ((0 : Nat) : Int) :=
  ⟨by decide, by decide⟩

/-- C10 witness: a concrete failing listing invocation exits with
status 1. -/
theorem devicesListing_error_exits_witness :
    getConnectedDevicesTop (.execFailure "exit status 1") =
      DirectoryResult.exited 1 :=
  devicesListing_error_exits.1 "exit status 1"

end Adbctl
